import Mathlib

/-!
Verification of the cgrates scheduler (`scheduler/scheduler.go`).

Shallow embedding conventions:
* time instants and durations are `Int` (Go `time.Time` / `time.Duration`;
  `u.Sub(t)` becomes `u - t`, `Before` becomes `<`, `Equal` becomes `=`);
* the two stats windows `map[string]map[time.Time]bool` become association
  lists `List (String × List Int)` whose timestamp lists play the role of the
  inner sets;
* the scheduler loop body, the rebuild (`loadActionPlans`) and the task drain
  are explicit functions on these values; goroutine dispatch is recorded in an
  output list instead of being performed;
* channel hand-offs (the unbuffered `restartLoop` channel, the capacity-10
  `limit` channel) are modelled as labelled-transition systems whose guards are
  Go's channel semantics: a send on an unbuffered channel needs a waiting
  receiver, a send on a buffered channel needs free capacity, a receive needs
  a buffered value.
-/

namespace Sched

/-- Modelled from the spec: a ScheduledItem (`engine.ActionTiming`, a type of
the engine package that is not under src/).  It carries an opaque recurrence
descriptor that resolves a next start time from a reference instant, a cached
next-start-time that is invalidated explicitly and recomputed lazily, an ASAP
flag, an action identifier, the owning account set and the action-plan id. -/
structure ActionTiming where
  timing : Option (Int → Int)
  asap : Bool
  stCache : Option Int
  actionsID : String
  accountIDs : List String
  actionPlanID : String

/-- Modelled from the spec: `item.resolveNextStart(referenceInstant)` with the
memoised cache — if a cached instant is present it is returned unchanged,
otherwise the recurrence descriptor is evaluated at the reference instant and
the result is memoised.  Returns the resolved instant together with the
(possibly cache-updated) item, standing for the in-place mutation of the Go
pointer. -/
def ActionTiming.GetNextStartTime (a : ActionTiming) (t : Int) : Int × ActionTiming :=
  match a.stCache with
  | some v => (v, a)
  | none =>
    match a.timing with
    | some f => (f t, { a with stCache := some (f t) })
    | none => (0, a)

/-- Modelled from the spec: `item.invalidateCachedStart()` drops the memoised
next-start-time. -/
def ActionTiming.ResetStartTimeCache (a : ActionTiming) : ActionTiming :=
  { a with stCache := none }

/-- Modelled from the spec: stamping an item with its owning account set at
rebuild time. -/
def ActionTiming.SetAccountIDs (a : ActionTiming) (ids : List String) : ActionTiming :=
  { a with accountIDs := ids }

/-- Modelled from the spec: stamping an item with its parent plan identifier at
rebuild time. -/
def ActionTiming.SetActionPlanID (a : ActionTiming) (pid : String) : ActionTiming :=
  { a with actionPlanID := pid }

/-- Modelled from the spec: `item.isASAP()` reports the item's ASAP flag. -/
def ActionTiming.IsASAP (a : ActionTiming) : Bool :=
  a.asap

/-- Modelled from the spec: an ActionPlan — an identifier, the accounts it
applies to, and its collection of scheduled items. -/
structure ActionPlan where
  planId : String
  accountIDs : List String
  actionTimings : List ActionTiming

/-- Modelled from the spec: the comparison supplied with
`engine.ActionTimingPriorityList` (not under src/) orders items ascending by
their next-start-time resolved against a reference instant. -/
def atKey (tRef : Int) (a : ActionTiming) : Int :=
  (a.GetNextStartTime tRef).1

/-- The queue ordering relation: ascending resolved next-start-time. -/
def atLE (tRef : Int) (a b : ActionTiming) : Prop :=
  atKey tRef a ≤ atKey tRef b

instance (tRef : Int) : DecidableRel (atLE tRef) :=
  fun a b => inferInstanceAs (Decidable (atKey tRef a ≤ atKey tRef b))

instance (tRef : Int) : IsTotal ActionTiming (atLE tRef) :=
  ⟨fun a b => le_total (atKey tRef a) (atKey tRef b)⟩

instance (tRef : Int) : IsTrans ActionTiming (atLE tRef) :=
  ⟨fun _ _ _ hab hbc => le_trans hab hbc⟩

/-- `sort.Sort(s.queue)`: sort the queue with the priority-list comparison. -/
def sortQ (tRef : Int) (q : List ActionTiming) : List ActionTiming :=
  q.insertionSort (atLE tRef)

/-- An `engine.Action`; the scheduler only looks at its `ActionType`. -/
structure Action where
  actionType : String
deriving DecidableEq

/-- One stats window: `map[actionType]map[execTime]bool` as an association
list from action kind to its set of execution timestamps. -/
abbrev StatsMap := List (String × List Int)

/-- The inner loop of the prune in `updateActStats`: keep a timestamp `t` iff
`now.Sub(t) > s.actStatsInterval` fails. -/
def pruneKindTs (now interval : Int) (ts : List Int) : List Int :=
  ts.filter (fun t => decide (now - t ≤ interval))

/-- The prune phase of `updateActStats`: every timestamp with
`now.Sub(t) > interval` is deleted, and an action kind is deleted as soon as a
deletion leaves its timestamp set empty (a kind that was already empty sees no
deletion, hence stays — exactly the Go loop, which only checks emptiness right
after a `delete`). -/
def pruneStats (now interval : Int) (m : StatsMap) : StatsMap :=
  m.filterMap (fun kv =>
    let ts := pruneKindTs now interval kv.2
    if ts.isEmpty && !kv.2.isEmpty then none else some (kv.1, ts))

/-- The insert phase of `updateActStats`: create the per-kind set if the kind
is absent (`statsMp[act.ActionType] = make(...)`), then add `now` to it
(`statsMp[act.ActionType][now] = true`; adding an instant already present is a
no-op, as for a Go map key). -/
def insertNow (now : Int) (k : String) (m : StatsMap) : StatsMap :=
  if (m.lookup k).isSome then
    m.map (fun kv =>
      if kv.1 = k then (kv.1, if kv.2.contains now then kv.2 else kv.2 ++ [now]) else kv)
  else m ++ [(k, [now])]

/-- The two stats windows of the `Scheduler` struct. -/
structure ActStats where
  actSuccessStats : StatsMap
  actFailedStats : StatsMap
deriving DecidableEq

/-- Window selection at the top of `updateActStats`: `statsMp :=
s.actSuccessStats; if isFailed { statsMp = s.actFailedStats }`. -/
def statsSel (isFailed : Bool) (s : ActStats) : StatsMap :=
  if isFailed then s.actFailedStats else s.actSuccessStats

/-- Writing the selected window back (the Go maps are mutated through the
`statsMp` reference, so only the selected field changes). -/
def statsSet (isFailed : Bool) (s : ActStats) (m : StatsMap) : ActStats :=
  if isFailed then { s with actFailedStats := m } else { s with actSuccessStats := m }

/-- `Scheduler.updateActStats`: select a window, prune it, and unless the
action is nil insert `now` under the action's kind.  The `Bool` component
records whether `mux.Unlock()` was executed before returning: the Go function
takes `mux.Lock()` and has no `defer`, and the `act == nil` branch returns
before reaching the `mux.Unlock()` at the end of the function body. -/
def updateActStats (s : ActStats) (interval : Int) (act : Option Action)
    (isFailed : Bool) (now : Int) : ActStats × Bool :=
  let statsMp := statsSel isFailed s
  let pruned := pruneStats now interval statsMp
  match act with
  | none => (statsSet isFailed s pruned, false)
  | some a => (statsSet isFailed s (insertNow now a.actionType pruned), true)

/-- Outcome of one iteration of the body of `Scheduler.Loop` on a non-empty
queue: the queue afterwards, the `ActionsID`s dispatched with `go a0.Execute`
during the iteration, and the duration of the deadline timer if one was
armed. -/
structure IterResult where
  queue : List ActionTiming
  fired : List String
  timerArmed : Option Int

/-- One iteration of the body of `Scheduler.Loop` (the part after the empty
check): read the head's next start against `now`; if due, dispatch it, reset
its cache, recompute against a fresh clock reading plus one second (`now =
time.Now().Add(time.Second)`, modelled by `now₂ + 1`), then either drop the
head (recomputed start before the reference) or re-append it and re-sort;
if not due, arm the deadline timer for the remaining interval. -/
def loopIter (q : List ActionTiming) (now now₂ : Int) : IterResult :=
  match q with
  | [] => ⟨[], [], none⟩
  | a0 :: rest =>
    let r0 := a0.GetNextStartTime now
    if r0.1 = now ∨ r0.1 < now then
      let a1 := r0.2.ResetStartTimeCache
      let r2 := a1.GetNextStartTime (now₂ + 1)
      if r2.1 < now₂ + 1 then
        ⟨rest, [a0.actionsID], none⟩
      else
        ⟨sortQ (now₂ + 1) (rest ++ [r2.2]), [a0.actionsID], none⟩
    else
      ⟨r0.2 :: rest, [], some (r0.1 - now)⟩

/-- The per-item filter of `loadActionPlans`: an item is discarded when its
timing is nil, when it is ASAP, or when its next start resolved against `now`
is strictly before `now`; otherwise it is stamped with the plan's accounts and
identifier and enqueued. -/
def enqueueAT (now : Int) (p : ActionPlan) (a : ActionTiming) : Option ActionTiming :=
  if a.timing.isNone then none
  else if a.IsASAP then none
  else
    let r := a.GetNextStartTime now
    if r.1 < now then none
    else some ((r.2.SetAccountIDs p.accountIDs).SetActionPlanID p.planId)

/-- The queue-rebuild part of `loadActionPlans`: scan every (non-nil) plan's
items through `enqueueAT`, then sort the assembled queue. -/
def loadQueue (now : Int) (plans : List (Option ActionPlan)) : List ActionTiming :=
  sortQ now ((plans.filterMap id).flatMap (fun p => p.actionTimings.filterMap (enqueueAT now p)))

/-- A durable one-shot task (`engine.Task`): account and action identifiers. -/
structure Task where
  accountID : String
  actionsID : String
deriving DecidableEq

/-- One result of `storage.PopTask()`: the Go pair `(task, err)`. -/
abbrev PopResult := Option Task × Option String

/-- The drain loop of `loadActionPlans`: pop tasks and execute them until
`err != nil || task == nil`.  Returns the tasks whose execution was
dispatched, in order. -/
def drainTasks : List PopResult → List Task
  | [] => []
  | (tk, er) :: rest =>
    match er, tk with
    | none, some t => t :: drainTasks rest
    | some _, _ => []
    | none, none => []

/-- The storage collaborator as consumed by `loadActionPlans`: the stream of
`PopTask` results and the result of `GetAllActionPlans`. -/
structure Storage where
  popResults : List PopResult
  plansResult : Except String (List (Option ActionPlan))

/-- The whole of `loadActionPlans`: drain the pending tasks, then rebuild the
queue from `GetAllActionPlans` — when that call returns an error it is only
logged and the loop ranges over the nil slice, i.e. over no plans at all. -/
def loadActionPlansFull (st : Storage) (now : Int) : List Task × List ActionTiming :=
  (drainTasks st.popResults,
   loadQueue now (match st.plansResult with
     | .ok ps => ps
     | .error _ => []))

/-- Control position of `Scheduler.Loop` in its outer `for`:
`top` is the head of the outer loop (where `schedulerStarted` is checked),
`parked` is the inner `for len(s.queue) == 0 { <-s.restartLoop }` receive,
`waiting` is the `select` on the deadline timer and `restartLoop`,
`running` is the iteration body on a non-empty queue, and
`done` is the `break` out of the outer loop. -/
inductive LoopPhase
  | top
  | parked
  | waiting
  | running
  | done
deriving DecidableEq

/-- The loop-relevant scheduler state: the `schedulerStarted` flag, the queue,
and where the loop's control currently is. -/
structure LoopState where
  started : Bool
  queue : List ActionTiming
  phase : LoopPhase

/-- The head of the outer loop of `Scheduler.Loop`: `if !s.schedulerStarted {
break }`, then `for len(s.queue) == 0` parks, else the body runs. -/
def topStep (s : LoopState) : LoopState :=
  if s.started = false then { s with phase := .done }
  else if s.queue.isEmpty then { s with phase := .parked }
  else { s with phase := .running }

/-- Delivery of a wake signal to a loop parked in
`for len(s.queue) == 0 { <-s.restartLoop }`: the receive returns and the inner
loop re-checks only the emptiness of the queue — if the queue is still empty
the loop parks on the channel again, otherwise control falls through into the
iteration body.  The `schedulerStarted` flag is not consulted here. -/
def parkedRecv (s : LoopState) : LoopState :=
  if s.queue.isEmpty then { s with phase := .parked } else { s with phase := .running }

/-- Completion of the `select` while waiting on the deadline (either the timer
fired or a wake signal was received): both branches just continue the outer
loop, so control returns to the top where the flag is re-checked. -/
def waitingRecv (s : LoopState) : LoopState :=
  { s with phase := .top }

/-- `Scheduler.Shutdown` as observed by the loop state: the flag is cleared
(the wake-signal send is the separate channel event delivered by `parkedRecv`
or `waitingRecv`). -/
def shutdownFlag (s : LoopState) : LoopState :=
  { s with started := false }

/-- Position of the loop goroutine relative to the unbuffered `restartLoop`
channel: `atRecv` when it is blocked at one of the two receive points (the
empty-queue park or the `select`), `busy` anywhere else (e.g. inside a FIRING
iteration). -/
inductive LoopPos
  | busy
  | atRecv
deriving DecidableEq

/-- Progress of a controller executing `s.restartLoop <- true` (from
`restart()` or `Shutdown()`): the send is still pending, or it has
completed. -/
inductive CtrlPhase
  | sendPending
  | sendDone
deriving DecidableEq

/-- Transitions of the pair (loop position, controller send) under Go's
semantics for an unbuffered channel (`restartLoop` is `make(chan bool)`,
capacity 0): a pending send completes only by rendezvous with a loop blocked
at a receive point; independently, the loop may finish its current iteration
work and arrive at a receive point.  There is no transition that completes the
send while the loop is busy: an unbuffered send cannot be queued. -/
inductive HandoffStep : LoopPos × CtrlPhase → LoopPos × CtrlPhase → Prop
  | deliver : HandoffStep (.atRecv, .sendPending) (.atRecv, .sendDone)
  | loopArrives (c : CtrlPhase) : HandoffStep (.busy, c) (.atRecv, c)

/-- State of the bulk task drain in `loadActionPlans`: `held` is the number of
permits currently occupied in the capacity-10 `limit` channel, `inFlight` the
number of dispatched task executions that have not yet completed. -/
structure DrainState where
  held : Nat
  inFlight : Nat
deriving DecidableEq

/-- Transitions of the drain: `startTask` is the main loop executing
`limit <- true` followed by `go func() { ... }` — the buffered send needs free
capacity (`held < 10`), and the dispatched execution becomes in-flight;
`finishTask` is a dispatched goroutine completing `task.Execute()` and then
releasing its permit with `<-limit` — the receive needs a buffered value
(`0 < held`). -/
inductive DrainStep : DrainState → DrainState → Prop
  | startTask (s : DrainState) : s.held < 10 → DrainStep s ⟨s.held + 1, s.inFlight + 1⟩
  | finishTask (s : DrainState) : 0 < s.inFlight → 0 < s.held →
      DrainStep s ⟨s.held - 1, s.inFlight - 1⟩

/-- Drain states reachable from the start of `loadActionPlans` (no permit
held, nothing dispatched). -/
def DrainReachable : DrainState → Prop :=
  Relation.ReflTransGen DrainStep ⟨0, 0⟩

theorem reset_after_getNextStart (a : ActionTiming) (t : Int) :
    (a.GetNextStartTime t).2.ResetStartTimeCache = a.ResetStartTimeCache := by
  unfold ActionTiming.GetNextStartTime ActionTiming.ResetStartTimeCache
  cases a.stCache <;> cases htm : a.timing <;> simp [htm]

theorem getNextStart_of_reset (a : ActionTiming) (t : Int) (f : Int → Int)
    (htm : a.timing = some f) :
    a.ResetStartTimeCache.GetNextStartTime t =
      (f t, { a with stCache := some (f t) }) := by
  unfold ActionTiming.GetNextStartTime ActionTiming.ResetStartTimeCache
  simp [htm]

theorem loopIter_due (a0 : ActionTiming) (rest : List ActionTiming)
    (now now₂ : Int) (f : Int → Int) (htm : a0.timing = some f)
    (hdue : (a0.GetNextStartTime now).1 ≤ now) :
    loopIter (a0 :: rest) now now₂ =
      if f (now₂ + 1) < now₂ + 1 then
        ⟨rest, [a0.actionsID], none⟩
      else
        ⟨sortQ (now₂ + 1) (rest ++ [{ a0 with stCache := some (f (now₂ + 1)) }]),
         [a0.actionsID], none⟩ := by
  have hgu : ((a0.GetNextStartTime now).1 = now ∨ (a0.GetNextStartTime now).1 < now) := by
    rcases lt_or_eq_of_le hdue with h | h
    · exact Or.inr h
    · exact Or.inl h
  simp only [loopIter, if_pos hgu, reset_after_getNextStart,
    getNextStart_of_reset a0 (now₂ + 1) f htm]

theorem getNextStart_timing (a : ActionTiming) (t : Int) :
    (a.GetNextStartTime t).2.timing = a.timing := by
  unfold ActionTiming.GetNextStartTime
  cases a.stCache <;> cases h : a.timing <;> simp [h]

theorem getNextStart_asap (a : ActionTiming) (t : Int) :
    (a.GetNextStartTime t).2.asap = a.asap := by
  unfold ActionTiming.GetNextStartTime
  cases a.stCache <;> cases h : a.timing <;> simp [h]

theorem getNextStart_cache_set (a : ActionTiming) (t : Int)
    (h : a.timing.isSome = true) :
    (a.GetNextStartTime t).2.stCache = some (a.GetNextStartTime t).1 := by
  rcases Option.isSome_iff_exists.mp h with ⟨f, hf⟩
  unfold ActionTiming.GetNextStartTime
  cases hc : a.stCache <;> simp [hf, hc]

theorem getNextStart_of_cache (a : ActionTiming) (t v : Int)
    (h : a.stCache = some v) : a.GetNextStartTime t = (v, a) := by
  unfold ActionTiming.GetNextStartTime
  simp [h]

/-- C3: every item present in the post-rebuild queue has a non-null timing
descriptor, ASAP = false, and a next-start-time resolved against the rebuild
instant that is not strictly before it — items with nil timing, ASAP items and
stale items are discarded by `loadActionPlans` and never enqueued. -/
theorem rebuilt_queue_member_invariant (now : Int) (plans : List (Option ActionPlan))
    (x : ActionTiming) (hx : x ∈ loadQueue now plans) :
    x.timing.isSome = true ∧ x.asap = false ∧ ¬ ((x.GetNextStartTime now).1 < now) := by
  simp only [loadQueue, sortQ, List.mem_insertionSort] at hx
  rcases List.mem_flatMap.mp hx with ⟨p, hp, hxp⟩
  rcases List.mem_filterMap.mp hxp with ⟨a, ha, hax⟩
  simp only [enqueueAT] at hax
  by_cases h1 : a.timing.isNone = true
  · rw [if_pos h1] at hax
    exact Option.noConfusion hax
  rw [if_neg h1] at hax
  by_cases h2 : a.IsASAP = true
  · rw [if_pos h2] at hax
    exact Option.noConfusion hax
  rw [if_neg h2] at hax
  by_cases h3 : (a.GetNextStartTime now).1 < now
  · rw [if_pos h3] at hax
    exact Option.noConfusion hax
  rw [if_neg h3] at hax
  have hx' : ((a.GetNextStartTime now).2.SetAccountIDs p.accountIDs).SetActionPlanID
      p.planId = x := Option.some.inj hax
  have hSome : a.timing.isSome = true := by
    cases h : a.timing
    · rw [h] at h1
      exact absurd rfl h1
    · rfl
  subst hx'
  refine ⟨?_, ?_, ?_⟩
  · simpa [ActionTiming.SetAccountIDs, ActionTiming.SetActionPlanID,
      getNextStart_timing] using hSome
  · have hasap : a.asap = false := by
      unfold ActionTiming.IsASAP at h2
      exact Bool.eq_false_iff.mpr h2
    simpa [ActionTiming.SetAccountIDs, ActionTiming.SetActionPlanID,
      getNextStart_asap] using hasap
  · have hc : (((a.GetNextStartTime now).2.SetAccountIDs p.accountIDs).SetActionPlanID
        p.planId).stCache = some (a.GetNextStartTime now).1 := by
      simpa [ActionTiming.SetAccountIDs, ActionTiming.SetActionPlanID] using
        getNextStart_cache_set a now hSome
    rw [getNextStart_of_cache _ now _ hc]
    exact h3

theorem rebuilt_queue_member_invariant_witness :
    (⟨some (fun t => t + 5), false, some 20, "B1", ["acc"], "p1"⟩ :
        ActionTiming).timing.isSome = true ∧
    (⟨some (fun t => t + 5), false, some 20, "B1", ["acc"], "p1"⟩ :
        ActionTiming).asap = false ∧
    ¬ (((⟨some (fun t => t + 5), false, some 20, "B1", ["acc"], "p1"⟩ :
        ActionTiming).GetNextStartTime 10).1 < 10) :=
  rebuilt_queue_member_invariant 10
    [some ⟨"p1", ["acc"], [⟨some (fun t => t + 5), false, some 20, "B1", [], ""⟩]⟩]
    ⟨some (fun t => t + 5), false, some 20, "B1", ["acc"], "p1"⟩
    (List.mem_singleton.mpr rfl)

theorem drainTasks_stops (good : List Task) (stop : PopResult) (rest : List PopResult)
    (hstop : stop.2.isSome = true ∨ stop.1 = none) :
    drainTasks (good.map (fun t => (some t, none)) ++ stop :: rest) = good := by
  induction good with
  | nil =>
    rcases stop with ⟨tk, er⟩
    rcases hstop with h | h
    · rcases Option.isSome_iff_exists.mp h with ⟨msg, hmsg⟩
      subst hmsg
      rfl
    · subst h
      cases er <;> rfl
  | cons t ts ih =>
    simpa [drainTasks] using ih

/-- C8: a failing `GetAllActionPlans` is not fatal to a reload — the rebuild
proceeds exactly as with no plans and publishes an empty queue — and the task
drain stops at the first `PopTask` result that carries an error (NotFound or
any other) or no task, having dispatched exactly the tasks popped before it. -/
theorem storage_failures_nonfatal (st : Storage) (now : Int) (e : String)
    (good : List Task) (stop : PopResult) (rest : List PopResult)
    (herr : st.plansResult = .error e)
    (hpop : st.popResults = good.map (fun t => (some t, none)) ++ stop :: rest)
    (hstop : stop.2.isSome = true ∨ stop.1 = none) :
    (loadActionPlansFull st now).2 = [] ∧ (loadActionPlansFull st now).1 = good := by
  constructor
  · simp only [loadActionPlansFull, herr]
    rfl
  · simp only [loadActionPlansFull, hpop]
    exact drainTasks_stops good stop rest hstop

theorem storage_failures_nonfatal_witness :
    (loadActionPlansFull
        ⟨[(some ⟨"acc1", "topup"⟩, none), (none, some "NOT_FOUND")], .error "redis gone"⟩
        5).2 = [] ∧
    (loadActionPlansFull
        ⟨[(some ⟨"acc1", "topup"⟩, none), (none, some "NOT_FOUND")], .error "redis gone"⟩
        5).1 = [⟨"acc1", "topup"⟩] :=
  storage_failures_nonfatal
    ⟨[(some ⟨"acc1", "topup"⟩, none), (none, some "NOT_FOUND")], .error "redis gone"⟩
    5 "redis gone" [⟨"acc1", "topup"⟩] (none, some "NOT_FOUND") []
    rfl rfl (Or.inl rfl)

/-- C2: a loop iteration whose queue head resolves to a next start equal to or
before `now` dispatches exactly that head's action (exactly once), arms no
timer, invalidates the head's cached next-start-time and recomputes it from
the recurrence descriptor against the fresh reference `now₂ + 1` (one second
past the second clock reading) — and then drops the head when the recomputed
time is before that reference, otherwise removes the head, re-appends the
recomputed item and re-sorts the queue. -/
theorem due_head_dispatched_once (a0 : ActionTiming) (rest : List ActionTiming)
    (now now₂ : Int) (f : Int → Int)
    (htm : a0.timing = some f)
    (hdue : (a0.GetNextStartTime now).1 ≤ now) :
    (loopIter (a0 :: rest) now now₂).fired = [a0.actionsID] ∧
    (loopIter (a0 :: rest) now now₂).timerArmed = none ∧
    (f (now₂ + 1) < now₂ + 1 → (loopIter (a0 :: rest) now now₂).queue = rest) ∧
    (now₂ + 1 ≤ f (now₂ + 1) →
      (loopIter (a0 :: rest) now now₂).queue =
        sortQ (now₂ + 1) (rest ++ [{ a0 with stCache := some (f (now₂ + 1)) }])) := by
  rw [loopIter_due a0 rest now now₂ f htm hdue]
  by_cases h : f (now₂ + 1) < now₂ + 1
  · rw [if_pos h]
    exact ⟨rfl, rfl, fun _ => rfl, fun hk => absurd h (not_lt.mpr hk)⟩
  · rw [if_neg h]
    exact ⟨rfl, rfl, fun hk => absurd hk h, fun _ => rfl⟩

theorem due_head_dispatched_once_witness :
    (loopIter [⟨some (fun t => t + 5), false, some 0, "A1", [], ""⟩] 10 10).fired = ["A1"] ∧
    (loopIter [⟨some (fun t => t + 5), false, some 0, "A1", [], ""⟩] 10 10).queue =
      sortQ 11 [⟨some (fun t => t + 5), false, some 16, "A1", [], ""⟩] := by
  have h := due_head_dispatched_once ⟨some (fun t => t + 5), false, some 0, "A1", [], ""⟩
      [] 10 10 (fun t => t + 5) rfl (by decide)
  exact ⟨h.1, h.2.2.2 (by decide)⟩

/-- C4: the queue is sorted ascending by resolved next-start-time (with
respect to the supplied comparison) after every rebuild and after every
FIRING-iteration reinsert. -/
theorem queue_sorted_after_rebuild_and_reinsert (now : Int)
    (plans : List (Option ActionPlan)) (a0 : ActionTiming) (rest : List ActionTiming)
    (now' now₂ : Int) (f : Int → Int)
    (htm : a0.timing = some f)
    (hdue : (a0.GetNextStartTime now').1 ≤ now')
    (hkeep : now₂ + 1 ≤ f (now₂ + 1)) :
    List.Sorted (atLE now) (loadQueue now plans) ∧
    List.Sorted (atLE (now₂ + 1)) ((loopIter (a0 :: rest) now' now₂).queue) := by
  constructor
  · simp only [loadQueue, sortQ]
    exact List.sorted_insertionSort (atLE now) _
  · rw [loopIter_due a0 rest now' now₂ f htm hdue, if_neg (not_lt.mpr hkeep)]
    simp only [sortQ]
    exact List.sorted_insertionSort (atLE (now₂ + 1)) _

theorem queue_sorted_after_rebuild_and_reinsert_witness :
    List.Sorted (atLE 0) (loadQueue 0 []) ∧
    List.Sorted (atLE 11)
      ((loopIter [⟨some (fun t => t + 5), false, some 0, "A1", [], ""⟩] 10 10).queue) :=
  queue_sorted_after_rebuild_and_reinsert 0 []
    ⟨some (fun t => t + 5), false, some 0, "A1", [], ""⟩ [] 10 10
    (fun t => t + 5) rfl (by decide) (by decide)

theorem drain_inv_of_reachable {s : DrainState} (h : DrainReachable s) :
    s.inFlight ≤ s.held ∧ s.held ≤ 10 := by
  induction h with
  | refl => exact ⟨Nat.le_refl 0, by decide⟩
  | tail _ hstep ih =>
    cases hstep with
    | startTask hlt => exact ⟨Nat.succ_le_succ ih.1, hlt⟩
    | finishTask hin hheld =>
      exact ⟨Nat.sub_le_sub_right ih.1 1, le_trans (Nat.sub_le _ _) ih.2⟩

/-- C9: during the bulk drain of pending tasks, at most 10 task executions are
in flight simultaneously, for every reachable drain state — each popped task
occupies a slot of the capacity-10 `limit` channel before its execution is
dispatched and frees it on completion. -/
theorem drain_inflight_at_most_ten (s : DrainState) (h : DrainReachable s) :
    s.inFlight ≤ 10 :=
  le_trans (drain_inv_of_reachable h).1 (drain_inv_of_reachable h).2

theorem drain_inflight_at_most_ten_witness :
    DrainReachable ⟨1, 1⟩ ∧ (⟨1, 1⟩ : DrainState).inFlight ≤ 10 := by
  have hr : DrainReachable ⟨1, 1⟩ :=
    Relation.ReflTransGen.single (DrainStep.startTask ⟨0, 0⟩ (by decide))
  exact ⟨hr, drain_inflight_at_most_ten ⟨1, 1⟩ hr⟩

/-- C6 (code bug): `updateActStats` does not release the window lock on every
path.  On the pure-prune path (`act == nil`) the Go function returns before
`mux.Unlock()` — the `Bool` component of the model records whether the unlock
was executed — while the insert path does unlock before returning. -/
theorem stats_lock_leak_on_pure_prune :
    (updateActStats ⟨[("debit", [0])], []⟩ 5 none false 3).2 = false ∧
    (updateActStats ⟨[("debit", [0])], []⟩ 5 (some ⟨"debit"⟩) false 3).2 = true := by
  exact ⟨rfl, rfl⟩

/-- C10: a call to `updateActStats` never mutates the window that the failure
flag did not select — recording (or prune-only updating) with
`isFailed = true` leaves the success window unchanged, and with
`isFailed = false` leaves the failure window unchanged. -/
theorem record_other_window_unchanged (s : ActStats) (interval : Int)
    (act : Option Action) (now : Int) :
    (updateActStats s interval act true now).1.actSuccessStats = s.actSuccessStats ∧
    (updateActStats s interval act false now).1.actFailedStats = s.actFailedStats := by
  cases act <;> exact ⟨rfl, rfl⟩

theorem statsSel_statsSet (isFailed : Bool) (s : ActStats) (m : StatsMap) :
    statsSel isFailed (statsSet isFailed s m) = m := by
  cases isFailed <;> rfl

theorem mem_pruneKindTs {now interval t : Int} {ts : List Int}
    (h : t ∈ pruneKindTs now interval ts) : t ∈ ts ∧ now - t ≤ interval := by
  unfold pruneKindTs at h
  rcases List.mem_filter.mp h with ⟨h1, h2⟩
  exact ⟨h1, of_decide_eq_true h2⟩

theorem mem_pruneStats {now interval : Int} {m : StatsMap} {kv : String × List Int}
    (h : kv ∈ pruneStats now interval m) :
    ∃ kv0 ∈ m, kv.1 = kv0.1 ∧ kv.2 = pruneKindTs now interval kv0.2 := by
  unfold pruneStats at h
  rcases List.mem_filterMap.mp h with ⟨kv0, h0, heq⟩
  dsimp only at heq
  by_cases hc : ((pruneKindTs now interval kv0.2).isEmpty && !kv0.2.isEmpty) = true
  · rw [if_pos hc] at heq
    exact Option.noConfusion heq
  · rw [if_neg hc] at heq
    have h' := Option.some.inj heq
    subst h'
    exact ⟨kv0, h0, rfl, rfl⟩

theorem mem_pruneStats_ne_nil {now interval : Int} {m : StatsMap} {kv : String × List Int}
    (h : kv ∈ pruneStats now interval m) (hne : ∀ kv0 ∈ m, kv0.2 ≠ ([] : List Int)) :
    kv.2 ≠ ([] : List Int) := by
  unfold pruneStats at h
  rcases List.mem_filterMap.mp h with ⟨kv0, h0, heq⟩
  dsimp only at heq
  by_cases hc : ((pruneKindTs now interval kv0.2).isEmpty && !kv0.2.isEmpty) = true
  · rw [if_pos hc] at heq
    exact Option.noConfusion heq
  · rw [if_neg hc] at heq
    have h' := Option.some.inj heq
    subst h'
    intro hnil
    apply hc
    have hnil' : pruneKindTs now interval kv0.2 = ([] : List Int) := hnil
    rw [hnil']
    simp [List.isEmpty_iff, hne kv0 h0]

theorem lookup_some_mem {m : StatsMap} {k : String} {ts : List Int}
    (h : m.lookup k = some ts) : (k, ts) ∈ m := by
  induction m with
  | nil => exact Option.noConfusion h
  | cons kv rest ih =>
    rcases kv with ⟨k1, v1⟩
    rw [List.lookup] at h
    by_cases he : (k == k1) = true
    · rw [he] at h
      have hk : k = k1 := eq_of_beq he
      have hv : v1 = ts := Option.some.inj h
      subst hk
      subst hv
      exact List.mem_cons_self _ _
    · rw [Bool.eq_false_iff.mpr he] at h
      exact List.mem_cons_of_mem _ (ih h)

theorem mem_insertNow {now : Int} {k : String} {m : StatsMap} {kv : String × List Int}
    (h : kv ∈ insertNow now k m) :
    (∃ kv0 ∈ m, kv.1 = kv0.1 ∧ (kv.2 = kv0.2 ∨ kv.2 = kv0.2 ++ [now])) ∨
      kv = (k, [now]) := by
  unfold insertNow at h
  by_cases hl : (m.lookup k).isSome = true
  · rw [if_pos hl] at h
    rcases List.mem_map.mp h with ⟨kv0, h0, heq⟩
    by_cases he : kv0.1 = k
    · rw [if_pos he] at heq
      by_cases hco : kv0.2.contains now = true
      · rw [if_pos hco] at heq
        subst heq
        exact Or.inl ⟨kv0, h0, rfl, Or.inl rfl⟩
      · rw [if_neg hco] at heq
        subst heq
        exact Or.inl ⟨kv0, h0, rfl, Or.inr rfl⟩
    · rw [if_neg he] at heq
      subst heq
      exact Or.inl ⟨kv0, h0, rfl, Or.inl rfl⟩
  · rw [if_neg hl] at h
    rcases List.mem_append.mp h with h' | h'
    · exact Or.inl ⟨kv, h', rfl, Or.inl rfl⟩
    · exact Or.inr (List.mem_singleton.mp h')

theorem insertNow_mem_key (now : Int) (k : String) (m : StatsMap) :
    ∃ ts, (k, ts) ∈ insertNow now k m ∧ now ∈ ts := by
  unfold insertNow
  by_cases hl : (m.lookup k).isSome = true
  · rw [if_pos hl]
    rcases Option.isSome_iff_exists.mp hl with ⟨ts0, hts0⟩
    have hmem : (k, ts0) ∈ m := lookup_some_mem hts0
    have hmm := List.mem_map_of_mem (fun kv =>
      if kv.1 = k then (kv.1, if kv.2.contains now then kv.2 else kv.2 ++ [now]) else kv) hmem
    by_cases hco : now ∈ ts0
    · refine ⟨ts0, ?_, hco⟩
      simpa [hco] using hmm
    · refine ⟨ts0 ++ [now], ?_, by simp⟩
      simpa [hco] using hmm
  · rw [if_neg hl]
    exact ⟨[now], List.mem_append_right _ (List.mem_singleton.mpr rfl),
      List.mem_singleton.mpr rfl⟩

/-- C5: after a call to `updateActStats`, every retained timestamp of the
selected window is within the retention interval of the call's `now` and no
action kind is left with an empty timestamp set; when the supplied action is
nil the call only prunes (every surviving timestamp already existed under the
same kind); when an action is supplied, a timestamp equal to `now` is present
under its action kind afterwards (the per-kind set being created if it was
absent). -/
theorem record_prune_insert (s : ActStats) (interval : Int) (act : Option Action)
    (isFailed : Bool) (now : Int)
    (hint : 0 ≤ interval)
    (hne : ∀ kv ∈ statsSel isFailed s, kv.2 ≠ ([] : List Int)) :
    (∀ kv ∈ statsSel isFailed (updateActStats s interval act isFailed now).1,
      kv.2 ≠ ([] : List Int) ∧ ∀ t ∈ kv.2, now - t ≤ interval) ∧
    (act = none →
      ∀ kv ∈ statsSel isFailed (updateActStats s interval act isFailed now).1,
        ∀ t ∈ kv.2, ∃ ts0, (kv.1, ts0) ∈ statsSel isFailed s ∧ t ∈ ts0) ∧
    (∀ a, act = some a →
      ∃ ts, (a.actionType, ts) ∈
          statsSel isFailed (updateActStats s interval act isFailed now).1 ∧
        now ∈ ts) := by
  refine ⟨?_, ?_, ?_⟩
  · intro kv hkv
    cases act with
    | none =>
      simp only [updateActStats, statsSel_statsSet] at hkv
      refine ⟨mem_pruneStats_ne_nil hkv hne, ?_⟩
      intro t ht
      rcases mem_pruneStats hkv with ⟨kv0, h0, hfst, hsnd⟩
      rw [hsnd] at ht
      exact (mem_pruneKindTs ht).2
    | some a =>
      simp only [updateActStats, statsSel_statsSet] at hkv
      rcases mem_insertNow hkv with ⟨kv0, h0, hfst, hsnd⟩ | heq
      · constructor
        · rcases hsnd with h | h <;> rw [h]
          · exact mem_pruneStats_ne_nil h0 hne
          · simp
        · intro t ht
          rcases hsnd with h | h <;> rw [h] at ht
          · rcases mem_pruneStats h0 with ⟨kv1, h1, hfst1, hsnd1⟩
            rw [hsnd1] at ht
            exact (mem_pruneKindTs ht).2
          · rcases List.mem_append.mp ht with h' | h'
            · rcases mem_pruneStats h0 with ⟨kv1, h1, hfst1, hsnd1⟩
              rw [hsnd1] at h'
              exact (mem_pruneKindTs h').2
            · rw [List.mem_singleton.mp h']
              omega
      · rw [heq]
        refine ⟨by simp, ?_⟩
        intro t ht
        rw [List.mem_singleton.mp ht]
        omega
  · intro hact kv hkv t ht
    subst hact
    simp only [updateActStats, statsSel_statsSet] at hkv
    rcases mem_pruneStats hkv with ⟨kv0, h0, hfst, hsnd⟩
    rw [hsnd] at ht
    refine ⟨kv0.2, ?_, (mem_pruneKindTs ht).1⟩
    rw [hfst]
    simpa using h0
  · intro a hact
    subst hact
    simp only [updateActStats, statsSel_statsSet]
    exact insertNow_mem_key now a.actionType _

theorem record_prune_insert_witness :
    ∃ ts, ("pay", ts) ∈
        statsSel false (updateActStats ⟨[("debit", [0, 8])], []⟩ 5 (some ⟨"pay"⟩)
          false 10).1 ∧
      (10 : Int) ∈ ts :=
  (record_prune_insert ⟨[("debit", [0, 8])], []⟩ 5 (some ⟨"pay"⟩) false 10
    (by decide) (by decide)).2.2 ⟨"pay"⟩ rfl

/-- C1 (code bug): after `Shutdown()` clears the flag and the wake signal is
delivered, a loop that was waiting on the deadline timer does observe the flag
at the top of the next iteration and exits — but a loop parked on an empty
queue does not: the inner park loop re-checks only the emptiness of the queue,
parks on the channel again (the state is a fixpoint of `parkedRecv`), and
never reaches the top-of-loop flag check, so it never terminates. -/
theorem shutdown_parked_loop_never_exits :
    parkedRecv (shutdownFlag ⟨true, [], .parked⟩) = ⟨false, [], .parked⟩ ∧
    parkedRecv ⟨false, [], .parked⟩ = ⟨false, [], .parked⟩ ∧
    (parkedRecv^[1000] ⟨false, [], .parked⟩).phase ≠ .done ∧
    (topStep (waitingRecv (shutdownFlag ⟨true, [], .waiting⟩))).phase = .done := by
  have hfix : parkedRecv ⟨false, [], .parked⟩ = ⟨false, [], .parked⟩ := rfl
  refine ⟨rfl, hfix, ?_, rfl⟩
  rw [Function.iterate_fixed hfix]
  decide

/-- C7 counterexample: with the loop busy (e.g. inside a FIRING iteration) and
a controller send pending on the unbuffered `restartLoop` channel, no
transition completes the send — the send blocks instead of completing
undelivered, refuting "sending the signal does not block the reload". -/
theorem wake_send_blocked_when_loop_busy :
    ¬ ∃ s : LoopPos × CtrlPhase,
        HandoffStep (.busy, .sendPending) s ∧ s.2 = .sendDone := by
  rintro ⟨s, hstep, hdone⟩
  cases hstep
  exact CtrlPhase.noConfusion hdone

/-- C7 (amended): the wake signal is an unbuffered rendezvous that is never
queued — a pending send completes only by being delivered to a loop blocked at
a receive point, and while the loop is busy the send remains pending (the
sender blocks until the loop next reaches a receive point). -/
theorem wake_signal_unbuffered_rendezvous (l l' : LoopPos) (c' : CtrlPhase)
    (h : HandoffStep (l, .sendPending) (l', c')) :
    (c' = .sendDone → l = .atRecv) ∧ (l = .busy → c' = .sendPending) := by
  cases h with
  | deliver => exact ⟨fun _ => rfl, fun hb => absurd hb (by decide)⟩
  | loopArrives c => exact ⟨fun hd => absurd hd (by decide), fun _ => rfl⟩

theorem wake_signal_unbuffered_rendezvous_witness :
    (CtrlPhase.sendDone = CtrlPhase.sendDone → LoopPos.atRecv = LoopPos.atRecv) ∧
    (LoopPos.atRecv = LoopPos.busy → CtrlPhase.sendDone = CtrlPhase.sendPending) :=
  wake_signal_unbuffered_rendezvous .atRecv .atRecv .sendDone HandoffStep.deliver

end Sched
